import Mathlib

/-!
Verification of the streaming ingestion/buffering engine of dcmini-org/dcmini-fw:
the `DataBuffer` class of `crates/dc-mini-host-py/examples/rerun_streaming.py`
(bounded per-channel buffers, per-sample timestamp synthesis, one-time sink
setup in `log_data_to_rerun`/`setup_blueprint`), the snapshot normalization in
`log_data_to_rerun`, and the streaming start/stop control flow of the example
`main` functions.

Samples and synthesized timestamps are modelled as exact rationals; device
timestamps are naturals (milliseconds).
-/

namespace DcMini

/-- Python's `xs[-k:]`.  Note the `k = 0` corner: `-0 == 0`, so `xs[-0:]`
is the whole list, not the empty list. -/
def pyLastSlice (k : Nat) (xs : List α) : List α :=
  if k = 0 then xs else xs.drop (xs.length - k)

/-- The trimming idiom `if len(xs) > m: xs = xs[-m:]` used throughout
`DataBuffer.add_frame`. -/
def trimTo (m : Nat) (xs : List α) : List α :=
  if m < xs.length then pyLastSlice m xs else xs

/-- The last `m` entries of a list (all of it when it is shorter). -/
def lastN (m : Nat) (xs : List α) : List α :=
  xs.drop (xs.length - m)

theorem lastN_eq_self {m : Nat} {xs : List α} (h : xs.length ≤ m) :
    lastN m xs = xs := by
  unfold lastN
  have : xs.length - m = 0 := Nat.sub_eq_zero_of_le h
  simp [this]

theorem lastN_length_le (m : Nat) (xs : List α) : (lastN m xs).length ≤ m := by
  unfold lastN
  simp only [List.length_drop]
  omega

theorem trimTo_eq_lastN {m : Nat} (hm : 1 ≤ m) (xs : List α) :
    trimTo m xs = lastN m xs := by
  unfold trimTo pyLastSlice lastN
  rcases Nat.lt_or_ge m xs.length with h | h
  · simp [h, Nat.ne_of_gt hm]
  · have : ¬ m < xs.length := Nat.not_lt.mpr h
    have h0 : xs.length - m = 0 := Nat.sub_eq_zero_of_le h
    simp [this, h0]

theorem trimTo_eq_self {m : Nat} {xs : List α} (h : xs.length ≤ m) :
    trimTo m xs = xs := by
  unfold trimTo
  simp [Nat.not_lt.mpr h]

theorem trimTo_length_le {m : Nat} (hm : 1 ≤ m) (xs : List α) :
    (trimTo m xs).length ≤ m := by
  rw [trimTo_eq_lastN hm]
  exact lastN_length_le m xs

theorem lastN_sublist (m : Nat) (xs : List α) : (lastN m xs).Sublist xs :=
  List.drop_sublist _ _

theorem trimTo_sublist (m : Nat) (xs : List α) : (trimTo m xs).Sublist xs := by
  unfold trimTo pyLastSlice
  by_cases h1 : m < xs.length <;> by_cases h2 : m = 0 <;>
    simp [h1, h2, List.drop_sublist]

theorem lastN_append_right {m : Nat} (xs : List α) {ys : List α}
    (h : m ≤ ys.length) : lastN m (xs ++ ys) = lastN m ys := by
  unfold lastN
  have hlen : (xs ++ ys).length - m = xs.length + (ys.length - m) := by
    simp only [List.length_append]; omega
  rw [hlen, List.drop_append_eq_append_drop]
  have : xs.length + (ys.length - m) - xs.length = ys.length - m := by omega
  simp [this]

theorem lastN_lastN_append (m : Nat) (xs ys : List α) :
    lastN m (lastN m xs ++ ys) = lastN m (xs ++ ys) := by
  rcases Nat.le_total xs.length m with h | h'
  · rw [lastN_eq_self h]
  · -- decompose xs into its dropped prefix and the retained suffix
    have hx : xs = xs.take (xs.length - m) ++ lastN m xs := by
      unfold lastN; rw [List.take_append_drop]
    have hlen : (lastN m xs).length = m := by
      unfold lastN; simp only [List.length_drop]; omega
    conv_rhs => rw [hx]
    rw [List.append_assoc]
    rw [lastN_append_right (xs.take (xs.length - m))
      (by simp [List.length_append, hlen])]

/-! ### The data model: `Frame` and `DataBuffer` (rerun_streaming.py) -/

/-- One batch of samples pushed by the streaming session.  `timestamp` is the
device clock in milliseconds; `channel_data` is the per-channel sample
sequences (`frame.channel_data` in the source). -/
structure Frame where
  timestamp : Nat
  channel_data : List (List ℚ)
deriving DecidableEq

/-- The `DataBuffer` object of rerun_streaming.py. -/
structure DataBuffer where
  max_samples : Nat
  num_channels : Nat
  data : List (List ℚ)
  timestamps : List ℚ
  latest_timestamp : Nat
  window_size : ℚ
  initialized : Bool
deriving DecidableEq

/-- `DataBuffer.__init__`: `data = [[] for _ in range(num_channels)]`,
empty timestamps, `latest_timestamp = 0`, `initialized = False`. -/
def DataBuffer.init (max_samples num_channels : Nat) : DataBuffer :=
  { max_samples := max_samples
    num_channels := num_channels
    data := List.replicate num_channels []
    timestamps := []
    latest_timestamp := 0
    window_size := 5
    initialized := false }

/-- `1.0 / 250.0` — the assumed 250 Hz sample interval in seconds. -/
def sample_interval : ℚ := 1 / 250

/-- `frame.timestamp / 1000.0` — the device timestamp converted to seconds. -/
def device_time_sec (f : Frame) : ℚ := (f.timestamp : ℚ) / 1000

/-- `len(frame.channel_data[0]) if frame.channel_data and frame.channel_data[0]
else 0`: the length of channel 0's contribution (0 when `channel_data` is empty
or its first entry is empty — in both cases `(headD []).length` is 0). -/
def num_new_samples (f : Frame) : Nat := (f.channel_data.headD []).length

/-- `np.linspace(start, stop, n)` (with its default `endpoint=True`), in exact
arithmetic: `n` evenly spaced values from `start` to `stop`. -/
def np_linspace (start stop : ℚ) (n : Nat) : List ℚ :=
  if n = 0 then []
  else if n = 1 then [start]
  else (List.range n).map fun i : Nat =>
    start + (i : ℚ) * ((stop - start) / ((n - 1 : Nat) : ℚ))

/-- The `new_timestamps` array synthesized for a frame:
`np.linspace(device_time_sec, device_time_sec + (num_new_samples - 1) *
sample_interval, num_new_samples)`. -/
def new_timestamps (f : Frame) : List ℚ :=
  np_linspace (device_time_sec f)
    (device_time_sec f + ((num_new_samples f - 1 : Nat) : ℚ) * sample_interval)
    (num_new_samples f)

/-- The per-channel update loop of `add_frame`:
`for ch_idx, channel_data in enumerate(frame.channel_data): if ch_idx <
self.num_channels: self.data[ch_idx].extend(channel_data); trim`.
`i` is the index of the first buffer in `bufs` (the loop is started at 0). -/
def updChannels (cd : List (List ℚ)) (nc m : Nat) : Nat → List (List ℚ) → List (List ℚ)
  | _, [] => []
  | i, buf :: rest =>
      (if i < cd.length ∧ i < nc then trimTo m (buf ++ cd.getD i []) else buf)
        :: updChannels cd nc m (i + 1) rest

/-- `DataBuffer.add_frame`: record `latest_timestamp`, extend-and-trim every
channel present in the frame (indices `< num_channels` only), and when channel
0 contributed samples, append the synthesized timestamps and trim them. -/
def DataBuffer.add_frame (b : DataBuffer) (f : Frame) : DataBuffer :=
  { b with
    latest_timestamp := f.timestamp
    data := updChannels f.channel_data b.num_channels b.max_samples 0 b.data
    timestamps :=
      if 0 < num_new_samples f then
        trimTo b.max_samples (b.timestamps ++ new_timestamps f)
      else b.timestamps }

/-- Ingesting a sequence of frames in arrival order. -/
def runFrames (b : DataBuffer) : List Frame → DataBuffer
  | [] => b
  | f :: rest => runFrames (b.add_frame f) rest

/-- The concatenation of channel `i`'s contributions over a frame sequence. -/
def totalContrib (fs : List Frame) (i : Nat) : List ℚ :=
  (fs.map fun f => f.channel_data.getD i []).flatten

/-! ### Structural lemmas about `add_frame` and `runFrames` -/

theorem updChannels_length (cd : List (List ℚ)) (nc m : Nat) :
    ∀ (i : Nat) (bufs : List (List ℚ)),
      (updChannels cd nc m i bufs).length = bufs.length := by
  intro i bufs
  induction bufs generalizing i with
  | nil => rfl
  | cons buf rest ih => simp [updChannels, ih]

theorem updChannels_getD (cd : List (List ℚ)) (nc m : Nat) :
    ∀ (i k : Nat) (bufs : List (List ℚ)), k < bufs.length →
      (updChannels cd nc m i bufs).getD k [] =
        if i + k < cd.length ∧ i + k < nc then
          trimTo m (bufs.getD k [] ++ cd.getD (i + k) [])
        else bufs.getD k [] := by
  intro i k bufs
  induction bufs generalizing i k with
  | nil => intro h; exact absurd h (by simp)
  | cons buf rest ih =>
    intro _
    cases k with
    | zero => simp [updChannels]
    | succ k' =>
      have hk : k' < rest.length := by
        simpa using Nat.lt_of_succ_lt_succ (by assumption)
      have := ih (i + 1) k' hk
      simp only [updChannels, List.getD_cons_succ]
      rw [this]
      have harith : i + 1 + k' = i + (k' + 1) := by omega
      rw [harith]

theorem add_frame_maxSamples (b : DataBuffer) (f : Frame) :
    (b.add_frame f).max_samples = b.max_samples := rfl

theorem add_frame_numChannels (b : DataBuffer) (f : Frame) :
    (b.add_frame f).num_channels = b.num_channels := rfl

theorem add_frame_dataLength (b : DataBuffer) (f : Frame) :
    (b.add_frame f).data.length = b.data.length :=
  updChannels_length _ _ _ _ _

/-! ### C1: channel buffers stay within `max_samples` -/

theorem updChannels_length_le (cd : List (List ℚ)) (nc m : Nat) (hm : 1 ≤ m) :
    ∀ (i : Nat) (bufs : List (List ℚ)), (∀ buf ∈ bufs, buf.length ≤ m) →
      ∀ buf ∈ updChannels cd nc m i bufs, buf.length ≤ m := by
  intro i bufs
  induction bufs generalizing i with
  | nil => intro _ buf h; exact absurd h (by simp [updChannels])
  | cons b rest ih =>
    intro hall buf hmem
    simp only [updChannels, List.mem_cons] at hmem
    rcases hmem with rfl | hmem
    · by_cases hg : i < cd.length ∧ i < nc
      · simpa [hg] using trimTo_length_le hm (b ++ cd.getD i [])
      · simpa [hg] using hall b (by simp)
    · exact ih (i + 1) (fun x hx => hall x (by simp [hx])) buf hmem

theorem runFrames_length_inv (m : Nat) (hm : 1 ≤ m) :
    ∀ (fs : List Frame) (b : DataBuffer), b.max_samples = m →
      (∀ buf ∈ b.data, buf.length ≤ m) →
      ∀ buf ∈ (runFrames b fs).data, buf.length ≤ m := by
  intro fs
  induction fs with
  | nil => intro b _ hinv; exact hinv
  | cons f rest ih =>
    intro b hbm hinv
    refine ih (b.add_frame f) hbm ?_
    show ∀ buf ∈ updChannels f.channel_data b.num_channels b.max_samples 0 b.data,
      buf.length ≤ m
    rw [hbm]
    exact updChannels_length_le _ _ _ hm 0 b.data hinv

/-- C1 (amended): for every channel, after ingesting any sequence of frames
into a buffer with capacity `max_samples ≥ 1`, the channel buffer's length is
at most `max_samples`.  (The `≥ 1` side condition is forced by the Python
slice corner `xs[-0:] = xs`, see `maxSamples_zero_violates_bound`.) -/
theorem channel_length_le_maxSamples (maxS numCh : Nat) (hm : 1 ≤ maxS)
    (fs : List Frame) :
    ∀ buf ∈ (runFrames (DataBuffer.init maxS numCh) fs).data,
      buf.length ≤ maxS := by
  refine runFrames_length_inv maxS hm fs _ rfl ?_
  intro buf hb
  have : buf = [] := List.eq_of_mem_replicate hb
  simp [this]

/-- C1 (counterexample to the unrestricted claim): with `max_samples = 0`
the trim `self.data[ch_idx][-self.max_samples:]` keeps the whole list
(`xs[-0:] == xs` in Python), so one ingested sample already exceeds the
capacity. -/
theorem maxSamples_zero_violates_bound :
    ¬ (∀ buf ∈ (runFrames (DataBuffer.init 0 1) [⟨1000, [[1]]⟩]).data,
        buf.length ≤ (DataBuffer.init 0 1).max_samples) := by
  decide

/-- C1 witness: the amended bound evaluated on the spec's own example
(`max_samples = 3`, one channel, frames contributing `[1,2]` then `[3,4,5]`). -/
theorem channel_length_le_maxSamples_witness :
    ((runFrames (DataBuffer.init 3 1) [⟨0, [[1, 2]]⟩, ⟨8, [[3, 4, 5]]⟩]).data.getD 0
      []).length ≤ 3 :=
  channel_length_le_maxSamples 3 1 (by decide)
    [⟨0, [[1, 2]]⟩, ⟨8, [[3, 4, 5]]⟩] _ (by decide)

/-! ### C2: eviction is strict FIFO -/

theorem getD_out_of_range {xs : List α} {i : Nat} (d : α) (h : xs.length ≤ i) :
    xs.getD i d = d := by
  simp [List.getD_eq_getElem?_getD, List.getElem?_eq_none h]

theorem runFrames_chan (m : Nat) (hm : 1 ≤ m) (i : Nat) :
    ∀ (fs : List Frame) (b : DataBuffer), b.max_samples = m →
      i < b.num_channels → i < b.data.length →
      (b.data.getD i []).length ≤ m →
      (runFrames b fs).data.getD i [] =
        lastN m (b.data.getD i [] ++ totalContrib fs i) := by
  intro fs
  induction fs with
  | nil =>
    intro b _ _ _ hlen
    simp only [runFrames, totalContrib, List.map_nil, List.flatten_nil,
      List.append_nil]
    exact (lastN_eq_self hlen).symm
  | cons f rest ih =>
    intro b hbm hnc hdl hlen
    have hstep : (b.add_frame f).data.getD i [] =
        lastN m (b.data.getD i [] ++ f.channel_data.getD i []) := by
      show (updChannels f.channel_data b.num_channels b.max_samples 0 b.data).getD
          i [] = _
      rw [updChannels_getD f.channel_data b.num_channels b.max_samples 0 i
        b.data hdl]
      simp only [Nat.zero_add]
      by_cases hc : i < f.channel_data.length
      · rw [if_pos ⟨hc, hnc⟩, hbm, trimTo_eq_lastN hm]
      · rw [if_neg (by tauto)]
        rw [getD_out_of_range [] (Nat.le_of_not_lt hc), List.append_nil]
        exact (lastN_eq_self hlen).symm
    have hrec := ih (b.add_frame f) hbm
      (by rw [add_frame_numChannels]; exact hnc)
      (by rw [add_frame_dataLength]; exact hdl)
      (by rw [hstep]; exact lastN_length_le m _)
    show (runFrames (b.add_frame f) rest).data.getD i [] = _
    rw [hrec, hstep, lastN_lastN_append]
    have : totalContrib (f :: rest) i =
        f.channel_data.getD i [] ++ totalContrib rest i := by
      simp [totalContrib]
    rw [this, List.append_assoc]

/-- C2 (amended): strict FIFO eviction, for capacities `max_samples ≥ 1`:
whenever the total contribution to a channel exceeds the capacity, the channel
buffer holds exactly the last `max_samples` values of the concatenation of all
appended samples, in order.  (`max_samples = 0` is excluded by
`fifo_violated_at_zero_capacity`.) -/
theorem fifo_eviction_lastN (maxS numCh : Nat) (hm : 1 ≤ maxS) (fs : List Frame)
    (i : Nat) (hi : i < numCh) (_hlen : maxS < (totalContrib fs i).length) :
    (runFrames (DataBuffer.init maxS numCh) fs).data.getD i [] =
      lastN maxS (totalContrib fs i) := by
  have hrep : (List.replicate numCh ([] : List ℚ)).getD i [] = [] := by
    rcases Nat.lt_or_ge i numCh with h | h
    · rw [List.getD_eq_getElem _ _ (by simpa using h)]
      simp
    · exact getD_out_of_range [] (by simpa using h)
  have := runFrames_chan maxS hm i fs (DataBuffer.init maxS numCh) rfl hi
    (by simpa [DataBuffer.init] using hi) (by simp [DataBuffer.init, hrep])
  simpa [DataBuffer.init, hrep] using this

/-- C2 (counterexample to the unrestricted claim): at `max_samples = 0` the
buffer retains everything (Python `xs[-0:] == xs`), so it does not equal the
last 0 values of the appended samples. -/
theorem fifo_violated_at_zero_capacity :
    0 < (totalContrib [⟨5, [[1, 2]]⟩] 0).length ∧
    (runFrames (DataBuffer.init 0 1) [⟨5, [[1, 2]]⟩]).data.getD 0 [] ≠
      lastN 0 (totalContrib [⟨5, [[1, 2]]⟩] 0) := by
  decide

/-- C2 witness: the spec's example — `max_samples = 3`, one channel, appending
`[1,2]` then `[3,4,5]` leaves exactly the last three of `[1,2,3,4,5]`. -/
theorem fifo_eviction_lastN_witness :
    (runFrames (DataBuffer.init 3 1) [⟨10, [[1, 2]]⟩, ⟨20, [[3, 4, 5]]⟩]).data.getD
      0 [] = lastN 3 (totalContrib [⟨10, [[1, 2]]⟩, ⟨20, [[3, 4, 5]]⟩] 0) :=
  fifo_eviction_lastN 3 1 (by decide) [⟨10, [[1, 2]]⟩, ⟨20, [[3, 4, 5]]⟩] 0
    (by decide) (by decide)

/-! ### C3: timestamp synthesis -/

/-- Normal form of the synthesized timestamps: the `i`-th value is
`device_time_sec + i * sample_interval` (numpy's linspace step
`(stop - start)/(n-1)` collapses to the fixed interval exactly). -/
theorem new_timestamps_eq (f : Frame) :
    new_timestamps f =
      (List.range (num_new_samples f)).map
        fun i : Nat => device_time_sec f + (i : ℚ) * sample_interval := by
  unfold new_timestamps np_linspace
  rcases hn : num_new_samples f with _ | n'
  · rw [if_pos rfl, List.range_zero, List.map_nil]
  · rcases n' with _ | n''
    · have h1 : List.range 1 = [0] := rfl
      simp only [Nat.zero_add, Nat.one_ne_zero, if_false, if_true, eq_self_iff_true,
        h1, List.map_singleton]
      norm_num
    · have hne : ((n'' + 1 : Nat) : ℚ) ≠ 0 := by
        exact_mod_cast Nat.succ_ne_zero n''
      have hs : (n'' + 1 + 1) - 1 = n'' + 1 := by omega
      have h2 : ¬(n'' + 1 + 1 = 0) := by omega
      have h3 : ¬(n'' + 1 + 1 = 1) := by omega
      rw [if_neg h2, if_neg h3, hs]
      refine List.map_congr_left ?_
      intro i _
      have hsub :
          device_time_sec f + ((n'' + 1 : Nat) : ℚ) * sample_interval -
            device_time_sec f = ((n'' + 1 : Nat) : ℚ) * sample_interval := by
        ring
      rw [hsub, mul_div_cancel_left₀ _ hne]

theorem new_timestamps_length (f : Frame) :
    (new_timestamps f).length = num_new_samples f := by
  rw [new_timestamps_eq, List.length_map, List.length_range]

theorem new_timestamps_getD (f : Frame) {i : Nat} (hi : i < num_new_samples f) :
    (new_timestamps f).getD i 0 =
      device_time_sec f + (i : ℚ) * sample_interval := by
  have hlen : i < ((List.range (num_new_samples f)).map
      (fun j : Nat => device_time_sec f + (j : ℚ) * sample_interval)).length := by
    rw [List.length_map, List.length_range]; exact hi
  rw [new_timestamps_eq, List.getD_eq_getElem _ _ hlen]
  simp only [List.getElem_map, List.getElem_range]

theorem add_frame_timestamps_pos (b : DataBuffer) (f : Frame)
    (hn : 0 < num_new_samples f) :
    (b.add_frame f).timestamps =
      trimTo b.max_samples (b.timestamps ++ new_timestamps f) := by
  show (if _ then _ else _) = _
  rw [if_pos hn]

/-- C3 (confirmed): a frame with `n > 0` channel-0 samples synthesizes exactly
`n` timestamps, the `i`-th being `frame.timestamp / 1000 + i * (1/250)`
seconds, and `add_frame` appends exactly this block (before trimming) whatever
the buffer already holds. -/
theorem timestamp_synthesis_spec (f : Frame) (hn : 0 < num_new_samples f) :
    (new_timestamps f).length = num_new_samples f ∧
    (∀ i, i < num_new_samples f →
      (new_timestamps f).getD i 0 =
        (f.timestamp : ℚ) / 1000 + (i : ℚ) * sample_interval) ∧
    ∀ b : DataBuffer,
      (b.add_frame f).timestamps =
        trimTo b.max_samples (b.timestamps ++ new_timestamps f) := by
  exact ⟨new_timestamps_length f, fun i hi => new_timestamps_getD f hi,
    fun b => add_frame_timestamps_pos b f hn⟩

/-- C3 witness: the spec's example — `frame.timestamp = 1000` ms, four samples
on channel 0 — yields the four timestamps `1.0, 1.004, 1.008, 1.012` s. -/
theorem timestamp_synthesis_spec_witness :
    (new_timestamps ⟨1000, [[9, 9, 9, 9]]⟩).length = 4 ∧
    (new_timestamps ⟨1000, [[9, 9, 9, 9]]⟩).getD 3 0 = 253 / 250 := by
  have h := timestamp_synthesis_spec ⟨1000, [[9, 9, 9, 9]]⟩ (by decide)
  refine ⟨h.1, ?_⟩
  rw [h.2.1 3 (by decide)]
  norm_num [sample_interval]

/-! ### C4: monotonicity of the timestamp series -/

/-- Spacing condition between consecutive device timestamps under which the
synthesized series stays monotone: the next frame's anchor (`timestamp` ms)
must not precede the end of the span covered by the previous frame's
synthesized timestamps — 4 ms per sample at the assumed 250 Hz. -/
def frameGap (f g : Frame) : Prop :=
  f.timestamp + 4 * (num_new_samples f - 1) ≤ g.timestamp

instance : DecidableRel frameGap := fun _f _g => Nat.decLe _ _

theorem new_timestamps_mem_bounds (f : Frame) {x : ℚ}
    (hx : x ∈ new_timestamps f) :
    device_time_sec f ≤ x ∧
      x ≤ device_time_sec f +
        ((num_new_samples f - 1 : Nat) : ℚ) * sample_interval := by
  rw [new_timestamps_eq] at hx
  rcases List.mem_map.mp hx with ⟨i, hi, rfl⟩
  have hi' : i < num_new_samples f := List.mem_range.mp hi
  have hΔ : (0 : ℚ) < sample_interval := by norm_num [sample_interval]
  have h0 : (0 : ℚ) ≤ (i : ℚ) * sample_interval := by positivity
  refine ⟨by linarith, ?_⟩
  have hle : i ≤ num_new_samples f - 1 := by omega
  have hle' : (i : ℚ) ≤ ((num_new_samples f - 1 : Nat) : ℚ) := by
    exact_mod_cast hle
  have := mul_le_mul_of_nonneg_right hle' (le_of_lt hΔ)
  linarith

theorem new_timestamps_pairwise (f : Frame) :
    (new_timestamps f).Pairwise (· ≤ ·) := by
  rw [new_timestamps_eq, List.pairwise_map]
  refine List.Pairwise.imp ?_ (List.pairwise_lt_range _)
  intro a b hab
  have hΔ : (0 : ℚ) ≤ sample_interval := by norm_num [sample_interval]
  have hab' : (a : ℚ) ≤ (b : ℚ) := by exact_mod_cast Nat.le_of_lt hab
  have := mul_le_mul_of_nonneg_right hab' hΔ
  linarith

theorem add_frame_timestamps_sorted (b : DataBuffer) (f : Frame)
    (hs : b.timestamps.Pairwise (· ≤ ·))
    (hb : ∀ x ∈ b.timestamps, x ≤ device_time_sec f) :
    (b.add_frame f).timestamps.Pairwise (· ≤ ·) ∧
      ∀ x ∈ (b.add_frame f).timestamps,
        x ≤ device_time_sec f +
          ((num_new_samples f - 1 : Nat) : ℚ) * sample_interval := by
  have hΔ : (0 : ℚ) ≤ ((num_new_samples f - 1 : Nat) : ℚ) * sample_interval := by
    have : (0 : ℚ) ≤ sample_interval := by norm_num [sample_interval]
    positivity
  by_cases hn : 0 < num_new_samples f
  · have heq : (b.add_frame f).timestamps
        = trimTo b.max_samples (b.timestamps ++ new_timestamps f) := by
      show (if _ then _ else _) = _
      rw [if_pos hn]
    constructor
    · rw [heq]
      refine List.Pairwise.sublist (trimTo_sublist _ _) ?_
      rw [List.pairwise_append]
      refine ⟨hs, new_timestamps_pairwise f, ?_⟩
      intro x hx y hy
      exact le_trans (hb x hx) (new_timestamps_mem_bounds f hy).1
    · intro x hx
      rw [heq] at hx
      have hx' := (trimTo_sublist _ _).subset hx
      rcases List.mem_append.mp hx' with h | h
      · exact le_trans (hb x h) (by linarith)
      · exact (new_timestamps_mem_bounds f h).2
  · have heq : (b.add_frame f).timestamps = b.timestamps := by
      show (if _ then _ else _) = _
      rw [if_neg hn]
    rw [heq]
    exact ⟨hs, fun x hx => le_trans (hb x hx) (by linarith)⟩

theorem runFrames_timestamps_sorted :
    ∀ (fs : List Frame) (b : DataBuffer) (c : ℚ),
      List.Chain' frameGap fs →
      b.timestamps.Pairwise (· ≤ ·) →
      (∀ x ∈ b.timestamps, x ≤ c) →
      (∀ f ∈ fs.head?, c ≤ device_time_sec f) →
      (runFrames b fs).timestamps.Pairwise (· ≤ ·) := by
  intro fs
  induction fs with
  | nil => intro b c _ hs _ _; exact hs
  | cons f rest ih =>
    intro b c hchain hs hb hhead
    have hcf : c ≤ device_time_sec f := hhead f rfl
    have hstep := add_frame_timestamps_sorted b f hs
      (fun x hx => le_trans (hb x hx) hcf)
    rcases List.chain'_cons'.mp hchain with ⟨hgap, hchain'⟩
    refine ih (b.add_frame f)
      (device_time_sec f + ((num_new_samples f - 1 : Nat) : ℚ) * sample_interval)
      hchain' hstep.1 hstep.2 ?_
    intro g hg
    have hfg : frameGap f g := hgap g hg
    unfold frameGap at hfg
    have hq : ((f.timestamp + 4 * (num_new_samples f - 1) : Nat) : ℚ)
        ≤ ((g.timestamp : Nat) : ℚ) := by exact_mod_cast hfg
    unfold device_time_sec sample_interval
    push_cast at hq
    linarith

/-- C4 (amended): if consecutive device timestamps are spaced by at least the
span of the previous frame's synthesized block (`t_next ≥ t_prev +
4·(n_prev − 1)` ms), the buffered timestamp series is non-decreasing after
every ingest.  Merely non-decreasing device timestamps do NOT suffice (see
`timestamps_not_monotone_counterexample`), and with equality of consecutive
anchors the series has repeated values, so only non-strict monotonicity
holds. -/
theorem timestamps_monotone_of_gap (maxS numCh : Nat) (fs : List Frame)
    (hgap : List.Chain' frameGap fs) :
    (runFrames (DataBuffer.init maxS numCh) fs).timestamps.Pairwise (· ≤ ·) := by
  refine runFrames_timestamps_sorted fs _ 0 hgap List.Pairwise.nil
    (fun x hx => absurd hx (List.not_mem_nil x)) ?_
  intro f _
  unfold device_time_sec
  positivity

/-- C4 (counterexample to the claim as stated): two frames with strictly
increasing device timestamps 1000 ms and 1001 ms, the first contributing four
samples, leave the series `[1, 1.004, 1.008, 1.012, 1.001]`, which decreases
at the frame boundary. -/
theorem timestamps_not_monotone_counterexample :
    (1000 : Nat) ≤ 1001 ∧
    ¬ (runFrames (DataBuffer.init 100 1)
        [⟨1000, [[1, 1, 1, 1]]⟩, ⟨1001, [[1]]⟩]).timestamps.Pairwise (· ≤ ·) := by
  refine ⟨by decide, ?_⟩
  intro hp
  have hrun : runFrames (DataBuffer.init 100 1)
      [⟨1000, [[1, 1, 1, 1]]⟩, ⟨1001, [[1]]⟩]
      = ((DataBuffer.init 100 1).add_frame ⟨1000, [[1, 1, 1, 1]]⟩).add_frame
          ⟨1001, [[1]]⟩ := rfl
  have h1 : ((DataBuffer.init 100 1).add_frame ⟨1000, [[1, 1, 1, 1]]⟩).timestamps
      = new_timestamps ⟨1000, [[1, 1, 1, 1]]⟩ := by
    rw [add_frame_timestamps_pos _ _ (by decide)]
    rw [show (DataBuffer.init 100 1).timestamps = [] from rfl, List.nil_append]
    exact trimTo_eq_self (by rw [new_timestamps_length]; decide)
  have h2 : (((DataBuffer.init 100 1).add_frame ⟨1000, [[1, 1, 1, 1]]⟩).add_frame
      ⟨1001, [[1]]⟩).timestamps
      = new_timestamps ⟨1000, [[1, 1, 1, 1]]⟩ ++ new_timestamps ⟨1001, [[1]]⟩ := by
    rw [add_frame_timestamps_pos _ _ (by decide), h1]
    refine trimTo_eq_self ?_
    rw [List.length_append, new_timestamps_length, new_timestamps_length]
    decide
  rw [hrun, h2] at hp
  rcases List.pairwise_append.mp hp with ⟨_, _, hcross⟩
  have hx : device_time_sec ⟨1000, [[1, 1, 1, 1]]⟩ +
      ((3 : Nat) : ℚ) * sample_interval ∈ new_timestamps ⟨1000, [[1, 1, 1, 1]]⟩ := by
    rw [new_timestamps_eq]
    exact List.mem_map.mpr ⟨3, List.mem_range.mpr (by decide), rfl⟩
  have hy : device_time_sec ⟨1001, [[1]]⟩ +
      ((0 : Nat) : ℚ) * sample_interval ∈ new_timestamps ⟨1001, [[1]]⟩ := by
    rw [new_timestamps_eq]
    exact List.mem_map.mpr ⟨0, List.mem_range.mpr (by decide), rfl⟩
  have hle := hcross _ hx _ hy
  unfold device_time_sec sample_interval at hle
  norm_num at hle

/-- C4 witness: with the 4 ms-per-sample gap condition satisfied
(1000 → 1012 ms after a four-sample frame) the series is non-decreasing. -/
theorem timestamps_monotone_of_gap_witness :
    (runFrames (DataBuffer.init 100 1)
      [⟨1000, [[5, 5, 5, 5]]⟩, ⟨1012, [[6]]⟩]).timestamps.Pairwise (· ≤ ·) :=
  timestamps_monotone_of_gap 100 1 [⟨1000, [[5, 5, 5, 5]]⟩, ⟨1012, [[6]]⟩]
    (List.chain'_cons.mpr ⟨by decide, List.chain'_singleton _⟩)

/-! ### C5: reference-channel rule -/

theorem getD_mem_of_lt {xs : List (List ℚ)} {i : Nat} (h : i < xs.length) :
    xs.getD i [] ∈ xs := by
  rw [List.getD_eq_getElem _ _ h]
  exact List.getElem_mem h

theorem num_new_samples_eq_getD (f : Frame) :
    num_new_samples f = (f.channel_data.getD 0 []).length := by
  unfold num_new_samples
  cases f.channel_data <;> rfl

/-- C5 (confirmed): the synthesized-timestamp count for a frame equals the
length of channel 0's contribution (the reference channel); `add_frame`
appends exactly that block to the series; and any channel whose contribution
to this frame is empty (or absent) is left unchanged by the ingest. -/
theorem reference_channel_rule (b : DataBuffer) (f : Frame)
    (hd : ∀ buf ∈ b.data, buf.length ≤ b.max_samples)
    (ht : b.timestamps.length ≤ b.max_samples) :
    (new_timestamps f).length = (f.channel_data.getD 0 []).length ∧
    (b.add_frame f).timestamps =
      trimTo b.max_samples (b.timestamps ++ new_timestamps f) ∧
    ∀ i, f.channel_data.getD i [] = [] →
      (b.add_frame f).data.getD i [] = b.data.getD i [] := by
  refine ⟨?_, ?_, ?_⟩
  · rw [new_timestamps_length, num_new_samples_eq_getD]
  · by_cases hn : 0 < num_new_samples f
    · exact add_frame_timestamps_pos b f hn
    · have hz : num_new_samples f = 0 := by omega
      have hnt : new_timestamps f = [] := by
        have hl := new_timestamps_length f
        rw [hz] at hl
        exact List.length_eq_zero.mp hl
      have heq : (b.add_frame f).timestamps = b.timestamps := by
        show (if _ then _ else _) = _
        rw [if_neg hn]
      rw [heq, hnt, List.append_nil, trimTo_eq_self ht]
  · intro i hi
    rcases Nat.lt_or_ge i b.data.length with hlt | hge
    · show (updChannels f.channel_data b.num_channels b.max_samples 0
        b.data).getD i [] = _
      rw [updChannels_getD _ _ _ 0 i b.data hlt]
      simp only [Nat.zero_add]
      by_cases hg : i < f.channel_data.length ∧ i < b.num_channels
      · rw [if_pos hg, hi, List.append_nil]
        exact trimTo_eq_self (hd _ (getD_mem_of_lt hlt))
      · rw [if_neg hg]
    · have h1 : (b.add_frame f).data.getD i [] = [] := by
        apply getD_out_of_range
        rw [add_frame_dataLength]
        exact hge
      rw [h1, getD_out_of_range [] hge]

/-- C5 witness: two channels, a frame contributing `[1,2]` to channel 0 and
nothing to channel 1 — two timestamps are synthesized and channel 1's buffer
is untouched. -/
theorem reference_channel_rule_witness :
    (new_timestamps ⟨1000, [[1, 2], []]⟩).length
      = ((⟨1000, [[1, 2], []]⟩ : Frame).channel_data.getD 0 []).length ∧
    ((DataBuffer.init 5 2).add_frame ⟨1000, [[1, 2], []]⟩).data.getD 1 []
      = (DataBuffer.init 5 2).data.getD 1 [] := by
  have h := reference_channel_rule (DataBuffer.init 5 2) ⟨1000, [[1, 2], []]⟩
    (by decide) (by decide)
  exact ⟨h.1, h.2.2 1 (by decide)⟩

/-! ### C6: degraded frames -/

/-- C6 (amended): a frame with empty `channel_data`, or with channel 0
contributing no samples, appends no timestamps; and `latest_timestamp` is set
to the frame's timestamp unconditionally (the embedding is a total function,
so no exception is possible on any of the degraded shapes).  A frame with
fewer channel entries than `num_channels` but a non-empty channel 0 does NOT
fall in this case: it still appends timestamps
(`short_frame_still_appends_timestamps`). -/
theorem degraded_frame_handling (b : DataBuffer) (f : Frame)
    (h : f.channel_data = [] ∨ f.channel_data.getD 0 [] = []) :
    (b.add_frame f).timestamps = b.timestamps ∧
    (b.add_frame f).latest_timestamp = f.timestamp := by
  have hz : num_new_samples f = 0 := by
    rw [num_new_samples_eq_getD]
    rcases h with h | h
    · rw [h]; rfl
    · rw [h]; rfl
  refine ⟨?_, rfl⟩
  show (if _ then _ else _) = _
  rw [if_neg (by omega)]

/-- C6 (counterexample to the claim as stated): a frame with fewer channel
entries (1) than `num_channels` (2) but two samples on channel 0 appends two
timestamps — the claim's "appends no new timestamps" fails for the
fewer-entries disjunct. -/
theorem short_frame_still_appends_timestamps :
    (([[1, 2]] : List (List ℚ)).length < (DataBuffer.init 10 2).num_channels) ∧
    ((DataBuffer.init 10 2).add_frame ⟨7, [[1, 2]]⟩).timestamps ≠
      (DataBuffer.init 10 2).timestamps := by
  decide

/-- C6 witness: an empty-`channel_data` frame leaves the series unchanged and
still records `latest_timestamp = 42`. -/
theorem degraded_frame_handling_witness :
    ((DataBuffer.init 3 2).add_frame ⟨42, []⟩).timestamps
      = (DataBuffer.init 3 2).timestamps ∧
    ((DataBuffer.init 3 2).add_frame ⟨42, []⟩).latest_timestamp = 42 :=
  degraded_frame_handling (DataBuffer.init 3 2) ⟨42, []⟩ (Or.inl rfl)

/-! ### C7: snapshot normalization (`log_data_to_rerun`, heatmap branch) -/

/-- `np.mean(heatmap_data)`: the mean over all entries of the 2-D snapshot. -/
def npMean (xss : List (List ℚ)) : ℚ :=
  xss.flatten.sum / (xss.flatten.length : ℚ)

/-- `np.var`: mean squared deviation over all entries. -/
def npVar (xss : List (List ℚ)) : ℚ :=
  ((xss.flatten.map fun x => (x - npMean xss) ^ 2).sum) / (xss.flatten.length : ℚ)

/-- `np.std(heatmap_data)`: the square root of the variance. -/
noncomputable def npStd (xss : List (List ℚ)) : ℝ :=
  Real.sqrt ((npVar xss : ℚ) : ℝ)

/-- `(heatmap_data - np.mean(heatmap_data)) / (np.std(heatmap_data) + 1e-6)`,
elementwise over the snapshot. -/
noncomputable def normalizeSnapshot (xss : List (List ℚ)) : List (List ℝ) :=
  xss.map fun row => row.map fun x =>
    ((x : ℝ) - ((npMean xss : ℚ) : ℝ)) / (npStd xss + 1 / 1000000)

/-- C7 (confirmed): the divisor `np.std(...) + 1e-6` is strictly positive for
every snapshot (standard deviations are non-negative), so every normalized
value is a well-defined finite real; and a snapshot whose retained samples are
all equal — e.g. one channel holding `[1,1,1,1,1]` — normalizes to all
zeros. -/
theorem normalization_no_div_by_zero :
    (∀ xss : List (List ℚ), 0 < npStd xss + 1 / 1000000) ∧
    normalizeSnapshot [[1, 1, 1, 1, 1]] = [[0, 0, 0, 0, 0]] := by
  constructor
  · intro xss
    have h := Real.sqrt_nonneg (((npVar xss : ℚ) : ℝ))
    unfold npStd
    have h6 : (0 : ℝ) < 1 / 1000000 := by norm_num
    linarith
  · have hm : npMean [[1, 1, 1, 1, 1]] = 1 := by
      unfold npMean
      simp
      norm_num
    unfold normalizeSnapshot
    rw [hm]
    norm_num

/-! ### C8: one-time sink setup -/

/-- The calls `log_data_to_rerun` makes into the Rerun sink. -/
inductive SinkEvent where
  | configureLayout
  | pushSeries (ch : Nat)
  | pushSnapshot
deriving DecidableEq

/-- The push calls `log_data_to_rerun` makes from the current buffer state:
one `rr.send_columns` per channel that has data (when the timestamp series is
non-empty), then one heatmap `rr.log` when every channel is non-empty.  (For
`data = []` Python's `min` over an empty generator would raise, so the
snapshot guard also requires non-empty `data`; that corner is unreachable for
the observed constructions.) -/
def logDataEvents (b : DataBuffer) : List SinkEvent :=
  ((List.range b.data.length).filterMap fun i =>
    if b.data.getD i [] ≠ [] ∧ b.timestamps ≠ [] then
      some (SinkEvent.pushSeries i)
    else none) ++
  (if b.data ≠ [] ∧ ∀ ch ∈ b.data, ch ≠ [] then [SinkEvent.pushSnapshot]
   else [])

/-- `log_data_to_rerun`: run the one-time `setup_blueprint` when the buffer is
not yet initialized (sending the blueprint and setting the flag), then emit
the pushes.  Returns the updated buffer and the emitted events in order. -/
def log_data_to_rerun (b : DataBuffer) : DataBuffer × List SinkEvent :=
  if b.initialized then (b, logDataEvents b)
  else ({ b with initialized := true },
    SinkEvent.configureLayout :: logDataEvents b)

/-- `on_data_received`: `data_buffer.add_frame(frame)` then
`log_data_to_rerun()`. -/
def on_data_received (b : DataBuffer) (f : Frame) : DataBuffer × List SinkEvent :=
  log_data_to_rerun (b.add_frame f)

/-- The whole callback sequence for a list of arriving frames, collecting the
emitted sink events in order. -/
def runCallbacks : DataBuffer → List Frame → DataBuffer × List SinkEvent
  | b, [] => (b, [])
  | b, f :: rest =>
    let r := on_data_received b f
    let r2 := runCallbacks r.1 rest
    (r2.1, r.2 ++ r2.2)

theorem configureLayout_not_mem_logDataEvents (b : DataBuffer) :
    SinkEvent.configureLayout ∉ logDataEvents b := by
  unfold logDataEvents
  intro hmem
  rcases List.mem_append.mp hmem with h | h
  · rcases List.mem_filterMap.mp h with ⟨i, _, hi⟩
    split at hi
    · exact SinkEvent.noConfusion (Option.some.inj hi)
    · exact Option.noConfusion hi
  · split at h
    · exact SinkEvent.noConfusion (List.mem_singleton.mp h)
    · exact List.not_mem_nil _ h

theorem log_initialized (b : DataBuffer) :
    (log_data_to_rerun b).1.initialized = true := by
  unfold log_data_to_rerun
  split
  · next h => exact h
  · rfl

theorem runCallbacks_initialized_inv :
    ∀ (fs : List Frame) (b : DataBuffer), b.initialized = true →
      (runCallbacks b fs).1.initialized = true ∧
      (runCallbacks b fs).2.count SinkEvent.configureLayout = 0 := by
  intro fs
  induction fs with
  | nil => intro b hb; exact ⟨hb, rfl⟩
  | cons f rest ih =>
    intro b hb
    have h1 : on_data_received b f
        = (b.add_frame f, logDataEvents (b.add_frame f)) := by
      unfold on_data_received log_data_to_rerun
      rw [if_pos (show (b.add_frame f).initialized = true from hb)]
    have hrun : runCallbacks b (f :: rest)
        = ((runCallbacks (on_data_received b f).1 rest).1,
           (on_data_received b f).2 ++
             (runCallbacks (on_data_received b f).1 rest).2) := rfl
    have hih := ih (b.add_frame f) (show (b.add_frame f).initialized = true from hb)
    rw [hrun, h1]
    refine ⟨hih.1, ?_⟩
    rw [List.count_append, hih.2,
      List.count_eq_zero.mpr (configureLayout_not_mem_logDataEvents _)]

/-- C8 (confirmed): over any non-empty sequence of frame callbacks starting
from a fresh buffer, `setup_blueprint` runs exactly once — at the head of the
very first callback's event block, hence before any push — and the
`initialized` flag, once true, is never reset by a later callback. -/
theorem one_time_sink_setup (maxS numCh : Nat) (fs : List Frame)
    (hne : fs ≠ []) :
    (runCallbacks (DataBuffer.init maxS numCh) fs).2.head?
      = some SinkEvent.configureLayout ∧
    (runCallbacks (DataBuffer.init maxS numCh) fs).2.count
      SinkEvent.configureLayout = 1 ∧
    (runCallbacks (DataBuffer.init maxS numCh) fs).1.initialized = true ∧
    ∀ (b : DataBuffer) (f : Frame), b.initialized = true →
      ((on_data_received b f).1).initialized = true := by
  rcases fs with _ | ⟨f, rest⟩
  · exact absurd rfl hne
  · have h1 : on_data_received (DataBuffer.init maxS numCh) f
        = ({ (DataBuffer.init maxS numCh).add_frame f with initialized := true },
           SinkEvent.configureLayout ::
             logDataEvents ((DataBuffer.init maxS numCh).add_frame f)) := by
      unfold on_data_received log_data_to_rerun
      rw [if_neg (show ¬ ((DataBuffer.init maxS numCh).add_frame f).initialized
        = true from Bool.false_ne_true)]
    have hrun : runCallbacks (DataBuffer.init maxS numCh) (f :: rest)
        = ((runCallbacks (on_data_received (DataBuffer.init maxS numCh) f).1
              rest).1,
           (on_data_received (DataBuffer.init maxS numCh) f).2 ++
             (runCallbacks (on_data_received (DataBuffer.init maxS numCh) f).1
               rest).2) := rfl
    have hinv := runCallbacks_initialized_inv rest
      { (DataBuffer.init maxS numCh).add_frame f with initialized := true } rfl
    refine ⟨?_, ?_, ?_, fun b g _ => log_initialized _⟩
    · rw [hrun, h1]
      rfl
    · rw [hrun, h1]
      show (_ :: _ ++ _).count _ = 1
      rw [List.cons_append, List.count_cons_self, List.count_append,
        List.count_eq_zero.mpr (configureLayout_not_mem_logDataEvents _),
        hinv.2]
    · rw [hrun, h1]
      exact hinv.1

/-- C8 witness: one callback on a fresh two-sample buffer — the event trace
starts with the layout configuration and contains it exactly once. -/
theorem one_time_sink_setup_witness :
    (runCallbacks (DataBuffer.init 10 1) [⟨1000, [[1]]⟩]).2.head?
      = some SinkEvent.configureLayout ∧
    (runCallbacks (DataBuffer.init 10 1) [⟨1000, [[1]]⟩]).2.count
      SinkEvent.configureLayout = 1 := by
  have h := one_time_sink_setup 10 1 [⟨1000, [[1]]⟩] (by decide)
  exact ⟨h.1, h.2.1⟩

/-! ### C9: stop-on-exit in the consuming programs -/

/-- The streaming-session client calls a consuming `main` can make. -/
inductive Call where
  | startStreaming
  | stopStreaming
deriving DecidableEq

/-- Control-flow model of `basic_usage.py`'s streaming region:
`try: config = client.start_streaming(...); input(...) finally:
client.stop_streaming()`.  After a successful start, `input()` either returns
or raises — either way the `finally` block invokes `stop_streaming` before the
exception (if any) propagates to the outer handler. -/
def basicMainCalls (inputRaises : Bool) : List Call :=
  Call.startStreaming ::
    ((if inputRaises then [] else []) ++ [Call.stopStreaming])

/-- How the region of `rerun_streaming.py`'s `main` after a successful
`start_streaming` can exit.  The wait loop only terminates by exception; only
`KeyboardInterrupt` is caught before the `stop_streaming()` call at the end of
the `try` block — any other exception (including one raised by the
`rr.log(config)` call before the loop) jumps to the outer `except` handlers. -/
inductive RerunRun where
  | loopKeyboardInterrupt
  | logConfigRaises
  | loopOtherException

/-- Control-flow model of `rerun_streaming.py`'s `main` after
`start_streaming` succeeds: `stop_streaming` is reached only on the
`KeyboardInterrupt` path. -/
def rerunMainCalls : RerunRun → List Call
  | RerunRun.loopKeyboardInterrupt => [Call.startStreaming, Call.stopStreaming]
  | RerunRun.logConfigRaises => [Call.startStreaming]
  | RerunRun.loopOtherException => [Call.startStreaming]

/-- C9 (code bug): `basic_usage.py` does invoke `stop_streaming` exactly once
on every exit path after a successful start (its `try/finally`), but
`rerun_streaming.py` — and likewise `streaming_example.py`, which has the same
shape — never calls `stop_streaming` when an exception other than
`KeyboardInterrupt` is raised after `start_streaming` succeeded, contradicting
the scoped stop-on-exit contract the spec states for every consuming
program. -/
theorem rerun_missing_stop_on_error_path :
    ((basicMainCalls true).count Call.stopStreaming = 1 ∧
      (basicMainCalls false).count Call.stopStreaming = 1) ∧
    (rerunMainCalls RerunRun.logConfigRaises).count Call.startStreaming = 1 ∧
    (rerunMainCalls RerunRun.logConfigRaises).count Call.stopStreaming = 0 ∧
    (rerunMainCalls RerunRun.loopOtherException).count Call.stopStreaming = 0 := by
  decide

/-! ### C10: surplus channels are dropped -/

theorem getD_take_of_lt (cd : List (List ℚ)) {i nc : Nat} (h : i < nc) :
    (cd.take nc).getD i [] = cd.getD i [] := by
  rw [List.getD_eq_getElem?_getD, List.getD_eq_getElem?_getD,
    List.getElem?_take, if_pos h]

theorem updChannels_take (cd : List (List ℚ)) (nc m : Nat) :
    ∀ (i : Nat) (bufs : List (List ℚ)),
      updChannels (cd.take nc) nc m i bufs = updChannels cd nc m i bufs := by
  intro i bufs
  induction bufs generalizing i with
  | nil => rfl
  | cons buf rest ih =>
    show _ :: _ = _ :: _
    rw [ih]
    congr 1
    have hlen : (cd.take nc).length = min nc cd.length := List.length_take nc cd
    by_cases hg : i < cd.length ∧ i < nc
    · rw [if_pos ⟨by omega, hg.2⟩, if_pos hg, getD_take_of_lt cd hg.2]
    · rw [if_neg (by omega), if_neg hg]

theorem num_new_samples_take (f : Frame) {nc : Nat} (hc : 1 ≤ nc) :
    num_new_samples ⟨f.timestamp, f.channel_data.take nc⟩ = num_new_samples f := by
  unfold num_new_samples
  cases f.channel_data with
  | nil => rw [List.take_nil]
  | cons c t =>
    rcases Nat.exists_eq_add_of_le hc with ⟨k, hk⟩
    rw [hk, Nat.add_comm, List.take_succ_cons]
    rfl

/-- C10 (amended): provided `num_channels ≥ 1` (all observed constructions use
8), ingesting a frame with surplus per-channel entries is identical to
ingesting the frame truncated to its first `num_channels` entries — the
surplus entries are ignored without error.  For `num_channels = 0` truncation
is NOT equivalent: channel 0 of the original frame still drives timestamp
synthesis (`surplus_channels_zero_numchannels`). -/
theorem surplus_channels_dropped (b : DataBuffer) (f : Frame)
    (hc : 1 ≤ b.num_channels) :
    b.add_frame f =
      b.add_frame ⟨f.timestamp, f.channel_data.take b.num_channels⟩ := by
  have hnum := num_new_samples_take f hc
  have hnt : new_timestamps ⟨f.timestamp, f.channel_data.take b.num_channels⟩
      = new_timestamps f := by
    unfold new_timestamps device_time_sec
    rw [hnum]
  have hdata : updChannels (f.channel_data.take b.num_channels) b.num_channels
      b.max_samples 0 b.data
      = updChannels f.channel_data b.num_channels b.max_samples 0 b.data :=
    updChannels_take f.channel_data b.num_channels b.max_samples 0 b.data
  unfold DataBuffer.add_frame
  rw [hnum, hnt, hdata]

/-- C10 (counterexample to the unrestricted claim): with `num_channels = 0`,
a frame carrying one surplus channel still synthesizes two timestamps from it,
while the truncated frame synthesizes none, so the resulting states differ. -/
theorem surplus_channels_zero_numchannels :
    (DataBuffer.init 5 0).num_channels < ([[1, 2]] : List (List ℚ)).length ∧
    (DataBuffer.init 5 0).add_frame ⟨1000, [[1, 2]]⟩ ≠
      (DataBuffer.init 5 0).add_frame
        ⟨1000, ([[1, 2]] : List (List ℚ)).take (DataBuffer.init 5 0).num_channels⟩ := by
  refine ⟨by decide, ?_⟩
  intro h
  have := congrArg DataBuffer.timestamps h
  revert this
  decide

/-- C10 witness: with one configured channel, a three-channel frame ingests
exactly like its truncation to the first channel. -/
theorem surplus_channels_dropped_witness :
    (DataBuffer.init 3 1).add_frame ⟨5, [[1], [2], [3]]⟩ =
      (DataBuffer.init 3 1).add_frame
        ⟨5, ([[1], [2], [3]] : List (List ℚ)).take (DataBuffer.init 3 1).num_channels⟩ :=
  surplus_channels_dropped (DataBuffer.init 3 1) ⟨5, [[1], [2], [3]]⟩ (by decide)

end DcMini
